import Mathlib

/-!
Verification of the `s3region` Go package (aws-bucket-region-go).

The package resolves the AWS region of an S3 bucket by normalizing a textual
identifier (plain bucket name, `s3://` URI, ARN, HTTP/HTTPS URL) to a bucket
name, validating it, and issuing a single HEAD request to
`https://<bucket>.s3.amazonaws.com`, reading the `x-amz-bucket-region`
response header.

Go strings are modelled as `List Char` (all strings relevant to the logic are
ASCII, where Go's byte-wise operations and the character-wise model agree).
The pluggable HTTP client (`HTTPClient.Do`) is modelled as a possibly stateful
transport function; the resolver itself keeps no state, which is made explicit
by threading the transport state through each call.
-/

namespace S3Region

/-- Go strings, modelled as lists of characters. -/
abbrev GoStr := List Char

/-- Abbreviation for string literals used in concrete statements. -/
def gs (s : String) : GoStr := s.toList

/-! ### Character classes (from `isValidBucketName` in s3region.go) -/

/-- `(c >= 'a' && c <= 'z') || (c >= '0' && c <= '9')` — the first/last
character check of `isValidBucketName`. -/
def isLowerAlnum (c : Char) : Bool :=
  ('a' ≤ c && c ≤ 'z') || ('0' ≤ c && c ≤ '9')

/-- The per-character check of the validation loop: lowercase letters,
digits, periods and hyphens. -/
def isAllowedChar (c : Char) : Bool :=
  isLowerAlnum c || c == '.' || c == '-'

/-- `part[j] >= '0' && part[j] <= '9'` — digit check in the IP-address test. -/
def isDigitChar (c : Char) : Bool :=
  '0' ≤ c && c ≤ '9'

/-- Whitespace as trimmed by Go's `strings.TrimSpace` (`unicode.IsSpace`),
restricted to the Latin-1 range, which covers every character that can occur
in an HTTP header value. -/
def isGoSpace (c : Char) : Bool :=
  c == ' ' || c == '\t' || c == '\n' || c == '\x0b' || c == '\x0c' ||
    c == '\r' || c == '\x85' || c == '\xa0'

/-! ### Go `strings` operations -/

/-- `strings.HasPrefix s p` (second argument is the sought pattern). -/
def hasPre : GoStr → GoStr → Bool
  | _, [] => true
  | [], _ :: _ => false
  | c :: s, p :: ps => p == c && hasPre s ps

/-- `strings.TrimPrefix s p`. -/
def trimPre (s p : GoStr) : GoStr :=
  if hasPre s p then s.drop p.length else s

/-- `strings.Index s sub`: the first index at which `sub` occurs in `s`
(`none` corresponds to Go's `-1`). -/
def strIndex : GoStr → GoStr → Option Nat
  | [], sub => if hasPre [] sub then some 0 else none
  | c :: t, sub =>
    if hasPre (c :: t) sub then some 0
    else (strIndex t sub).map (fun i => i + 1)

/-- `strings.Contains s sub`. -/
def containsSub (s sub : GoStr) : Bool :=
  (strIndex s sub).isSome

/-- The recurring Go idiom
`if idx := strings.Index(s, "/"); idx != -1 { s = s[:idx] }`. -/
def upToSlash (s : GoStr) : GoStr :=
  match strIndex s ['/'] with
  | some i => s.take i
  | none => s

/-- `strings.TrimSpace`. -/
def trimSpace (s : GoStr) : GoStr :=
  ((s.dropWhile isGoSpace).reverse.dropWhile isGoSpace).reverse

/-- `strings.Split s "."`, specialised to the separator used by the code. -/
def splitOnDot : GoStr → List GoStr
  | [] => [[]]
  | c :: t =>
    if c == '.' then [] :: splitOnDot t
    else
      match splitOnDot t with
      | [] => [[c]]
      | h :: r => (c :: h) :: r

/-! ### Bucket-name validation (`isValidBucketName` in s3region.go) -/

/-- The character/adjacent-period loop of `isValidBucketName`: given the
incoming `prevDot` flag, returns `none` on an illegal character or two
adjacent periods (the loop's early `return false`), otherwise `some dotCount`. -/
def scanChars : GoStr → Bool → Option Nat
  | [], _ => some 0
  | c :: t, prevDot =>
    if !isAllowedChar c then none
    else if c == '.' then
      if prevDot then none else (scanChars t true).map (fun k => k + 1)
    else scanChars t false

/-- The IP-address test of `isValidBucketName`: after splitting on `"."`,
exactly four parts, each non-empty and all digits. -/
def isIPLike (name : GoStr) : Bool :=
  let parts := splitOnDot name
  parts.length == 4 && parts.all (fun p => !p.isEmpty && p.all isDigitChar)

/-- `isValidBucketName` from s3region.go: length 3–63, alphanumeric first and
last character, only lowercase letters / digits / `.` / `-`, no two adjacent
periods, and (when the name has exactly three dots) not formatted as an
IP address. -/
def isValidBucketName (name : GoStr) : Bool :=
  if name.length < 3 || 63 < name.length then false
  else if !isLowerAlnum (name.headD ' ') then false
  else if !isLowerAlnum (name.getLastD ' ') then false
  else
    match scanChars name false with
    | none => false
    | some dotCount =>
      if dotCount == 3 then !isIPLike name else true

/-! ### Literal strings of the normalizer -/

def arnPre : GoStr := ['a','r','n',':','a','w','s',':','s','3',':',':',':']

def s3Pre : GoStr := ['s','3',':','/','/']

def httpPre : GoStr := ['h','t','t','p',':','/','/']

def httpsPre : GoStr := ['h','t','t','p','s',':','/','/']

def s3HostSuffix : GoStr :=
  ['.','s','3','.','a','m','a','z','o','n','a','w','s','.','c','o','m']

def dotS3 : GoStr := ['.','s','3']

def dotS3Dot : GoStr := ['.','s','3','.']

def dotS3Dash : GoStr := ['.','s','3','-']

/-! ### HTTP model -/

/-- An HTTP request as the code builds it: a method and a URL. -/
structure Request where
  method : GoStr
  url : GoStr
deriving DecidableEq

/-- The parts of an HTTP response the code inspects: the status code and the
value of the `x-amz-bucket-region` header (`none` when the header is absent;
`net/http`'s `Header.Get` returns `""` in that case, modelled by `headerGet`). -/
structure Response where
  statusCode : Nat
  regionHeader : Option GoStr
deriving DecidableEq

/-- `resp.Header.Get("x-amz-bucket-region")`: the header value, or `""` when
the header is absent. -/
def headerGet (resp : Response) : GoStr :=
  resp.regionHeader.getD []

/-- A Go error value: either a sentinel created by `errors.New`, or a
`fmt.Errorf` wrapper around an inner error with `%w`, whose message is
`pre ++ inner.message ++ suf`. -/
inductive GoErr where
  | sentinel (msg : GoStr)
  | wrapped (pre suf : GoStr) (inner : GoErr)
deriving DecidableEq

/-- `err.Error()`. -/
def GoErr.message : GoErr → GoStr
  | .sentinel m => m
  | .wrapped pre suf inner => pre ++ inner.message ++ suf

/-- `errors.Unwrap`. -/
def GoErr.unwrap : GoErr → Option GoErr
  | .sentinel _ => none
  | .wrapped _ _ inner => some inner

/-- `errors.Is e target` for the errors this package builds (sentinel
matching along the unwrap chain). -/
def GoErr.isErr : GoErr → GoErr → Bool
  | .sentinel m, target => GoErr.sentinel m == target
  | .wrapped pre suf inner, target =>
    GoErr.wrapped pre suf inner == target || inner.isErr target

/-- `var ErrInvalidBucketName = errors.New("invalid S3 bucket name")`. -/
def errInvalidBucketName : GoErr := .sentinel (gs "invalid S3 bucket name")

/-- `var ErrBucketNotFound = errors.New("aws s3 bucket not found")`. -/
def errBucketNotFound : GoErr := .sentinel (gs "aws s3 bucket not found")

/-- `var ErrRegionHeaderNotFound = errors.New("x-amz-bucket-region header not
found in response")`. -/
def errRegionHeaderNotFound : GoErr :=
  .sentinel (gs "x-amz-bucket-region header not found in response")

/-- A transport (the configured `HTTPClient`), possibly carrying client state
of type `σ`: `Do` consumes a request and the current state and produces either
an error string or a response, plus the next state. -/
def TransportSt (σ : Type) := σ → Request → (Except GoStr Response) × σ

/-- A stateless transport, for statements that do not need client state. -/
def Transport := Request → Except GoStr Response

/-! ### The resolver (s3region.go) -/

/-- `GetBucketRegionByName`, with the configured transport made explicit and
its state threaded through.  Mirrors the Go function body: validation, URL
construction, the single `Do` call, the 404 check, the header check, and the
trim on return.  (`http.NewRequestWithContext` cannot fail for the URLs this
function constructs, so its error branch has no counterpart here.)
Returns Go's `(string, error)` pair plus the transport state. -/
def headReq (bucketName : GoStr) : Request :=
  { method := gs "HEAD", url := httpsPre ++ bucketName ++ s3HostSuffix }

def GetBucketRegionByNameSt {σ : Type} (t : TransportSt σ) (st : σ)
    (bucketName : GoStr) : (GoStr × Option GoErr) × σ :=
  if !isValidBucketName bucketName then
    (([], some (.wrapped [] (gs ": " ++ bucketName) errInvalidBucketName)), st)
  else
    match t st (headReq bucketName) with
    | (.error cause, st') =>
      (([], some (.wrapped (gs "failed to perform HEAD request: ") []
          (.sentinel cause))), st')
    | (.ok resp, st') =>
      if resp.statusCode == 404 then (([], some errBucketNotFound), st')
      else if (headerGet resp).isEmpty then
        (([], some errRegionHeaderNotFound), st')
      else ((trimSpace (headerGet resp), none), st')

/-- The bucket-name extraction of `GetBucketRegionFromARN`: strip the
`arn:aws:s3:::` prefix and drop everything from the first `/`. -/
def bucketFromARN (arn : GoStr) : GoStr :=
  upToSlash (trimPre arn arnPre)

/-- The bucket-name extraction of `GetBucketRegionFromS3URI`. -/
def bucketFromS3URI (uri : GoStr) : GoStr :=
  upToSlash (trimPre uri s3Pre)

/-- The fall-through of `GetBucketRegionFromHTTPURL` when the host is not
virtual-hosted style: first path segment if the path is non-empty, otherwise
the whole host. -/
def httpFallback (host path : GoStr) : GoStr :=
  if !path.isEmpty then upToSlash path else host

/-- The bucket-name extraction of `GetBucketRegionFromHTTPURL`: strip the
scheme, split host/path at the first `/`, take the host part before `.s3`
for virtual-hosted hosts (containing `.s3.` or `.s3-`), otherwise the first
path segment, otherwise the host itself. -/
def bucketFromHTTPURL (url : GoStr) : GoStr :=
  let u := trimPre (trimPre url httpsPre) httpPre
  let hp : GoStr × GoStr :=
    match strIndex u ['/'] with
    | some i => (u.take i, u.drop (i + 1))
    | none => (u, [])
  let host := hp.1
  let path := hp.2
  if containsSub host dotS3Dot || containsSub host dotS3Dash then
    match strIndex host dotS3 with
    | some i => host.take i
    | none => httpFallback host path
  else httpFallback host path

/-- `GetBucketRegionFromARN` (the Go function computes the name and calls
`GetBucketRegionByName`). -/
def GetBucketRegionFromARNSt {σ : Type} (t : TransportSt σ) (st : σ)
    (arn : GoStr) : (GoStr × Option GoErr) × σ :=
  GetBucketRegionByNameSt t st (bucketFromARN arn)

/-- `GetBucketRegionFromS3URI`. -/
def GetBucketRegionFromS3URISt {σ : Type} (t : TransportSt σ) (st : σ)
    (uri : GoStr) : (GoStr × Option GoErr) × σ :=
  GetBucketRegionByNameSt t st (bucketFromS3URI uri)

/-- `GetBucketRegionFromHTTPURL`. -/
def GetBucketRegionFromHTTPURLSt {σ : Type} (t : TransportSt σ) (st : σ)
    (url : GoStr) : (GoStr × Option GoErr) × σ :=
  GetBucketRegionByNameSt t st (bucketFromHTTPURL url)

/-- `GetBucketRegion`, the umbrella entry point: dispatch on the identifier
format in source order (ARN, then `s3://`, then `http://`/`https://`, then
plain name up to the first `/`). -/
def GetBucketRegionSt {σ : Type} (t : TransportSt σ) (st : σ)
    (input : GoStr) : (GoStr × Option GoErr) × σ :=
  if hasPre input arnPre then GetBucketRegionFromARNSt t st input
  else if hasPre input s3Pre then GetBucketRegionFromS3URISt t st input
  else if hasPre input httpPre || hasPre input httpsPre then
    GetBucketRegionFromHTTPURLSt t st input
  else GetBucketRegionByNameSt t st (upToSlash input)

/-- Lift a stateless transport to a stateful one. -/
def liftT (t : Transport) : TransportSt Unit :=
  fun u r => (t r, u)

/-- `GetBucketRegionByName` with a stateless transport. -/
def GetBucketRegionByName (t : Transport) (bucketName : GoStr) :
    GoStr × Option GoErr :=
  (GetBucketRegionByNameSt (liftT t) () bucketName).1

/-- `GetBucketRegion` with a stateless transport. -/
def GetBucketRegion (t : Transport) (input : GoStr) : GoStr × Option GoErr :=
  (GetBucketRegionSt (liftT t) () input).1

/-- The bucket name each identifier normalizes to before the network call:
the dispatch of `GetBucketRegion` combined with the per-format extraction.
`GetBucketRegionSt` factors through this function (see
`getBucketRegionSt_factor`). -/
def deriveBucketName (input : GoStr) : GoStr :=
  if hasPre input arnPre then bucketFromARN input
  else if hasPre input s3Pre then bucketFromS3URI input
  else if hasPre input httpPre || hasPre input httpsPre then
    bucketFromHTTPURL input
  else upToSlash input

/-! ### Specification-side definitions (from the spec's words, for the
refinement claim about bucket-name validation) -/

/-- Modelled from the spec: "not formatted as a dotted-quad IPv4 address" —
four non-empty all-digit segments separated by periods. -/
def specDottedQuad (name : GoStr) : Prop :=
  ∃ a b c d : GoStr, a ≠ [] ∧ b ≠ [] ∧ c ≠ [] ∧ d ≠ [] ∧
    (∀ x ∈ a ++ b ++ c ++ d, '0' ≤ x ∧ x ≤ '9') ∧
    name = a ++ '.' :: (b ++ '.' :: (c ++ '.' :: d))

/-- Modelled from the spec: a name is accepted iff it has length 3–63,
begins and ends with a lowercase letter or digit, contains only lowercase
letters, digits, `.`, `-`, has no two adjacent periods, and is not a
dotted-quad IPv4 address. -/
def specValidBucketName (name : GoStr) : Prop :=
  3 ≤ name.length ∧ name.length ≤ 63 ∧
  (∀ c, name.head? = some c →
    ('a' ≤ c ∧ c ≤ 'z') ∨ ('0' ≤ c ∧ c ≤ '9')) ∧
  (∀ c, name.getLast? = some c →
    ('a' ≤ c ∧ c ≤ 'z') ∨ ('0' ≤ c ∧ c ≤ '9')) ∧
  (∀ c ∈ name,
    ('a' ≤ c ∧ c ≤ 'z') ∨ ('0' ≤ c ∧ c ≤ '9') ∨ c = '.' ∨ c = '-') ∧
  ¬ ['.', '.'] <:+: name ∧
  ¬ specDottedQuad name

/-! ### Proof helpers (not part of the source model) -/

/-- The adjacent-period state machine of the validation loop, isolated:
`p` is the incoming `prevDot` flag. -/
def noAdjFrom : Bool → GoStr → Bool
  | _, [] => true
  | p, c :: t => !(p && c == '.') && noAdjFrom (c == '.') t

/-- Inverse of `splitOnDot`: rejoin parts with `'.'`. -/
def joinDots : List GoStr → GoStr
  | [] => []
  | [p] => p
  | p :: ps => p ++ '.' :: joinDots ps

/-- The literal path suffix used in the spec's append-a-path property. -/
def anyPath : GoStr := ['/','a','n','y','/','p','a','t','h']

theorem getBucketRegionSt_factor {σ : Type} (t : TransportSt σ) (st : σ)
    (input : GoStr) :
    GetBucketRegionSt t st input =
      GetBucketRegionByNameSt t st (deriveBucketName input) := by
  unfold GetBucketRegionSt deriveBucketName GetBucketRegionFromARNSt
    GetBucketRegionFromS3URISt GetBucketRegionFromHTTPURLSt
  split
  · rfl
  · split
    · rfl
    · split <;> rfl

/-! ### String-operation lemmas -/

theorem hasPre_nil (s : GoStr) : hasPre s [] = true := by
  cases s <;> rfl

theorem hasPre_append_self (p r : GoStr) : hasPre (p ++ r) p = true := by
  induction p with
  | nil => exact hasPre_nil r
  | cons c t ih => simp [hasPre, ih]

theorem mem_of_hasPre {s p : GoStr} (h : hasPre s p = true) :
    ∀ c ∈ p, c ∈ s := by
  induction p generalizing s with
  | nil => simp
  | cons x xs ih =>
    cases s with
    | nil => simp [hasPre] at h
    | cons y ys =>
      simp only [hasPre, Bool.and_eq_true, beq_iff_eq] at h
      intro c hc
      rcases List.mem_cons.mp hc with rfl | hc
      · exact h.1 ▸ List.mem_cons_self y ys
      · exact List.mem_cons_of_mem y (ih h.2 c hc)

theorem hasPre_eq_false_of_mem {s p : GoStr} {c : Char} (hc : c ∈ p)
    (hs : c ∉ s) : hasPre s p = false := by
  cases h : hasPre s p with
  | false => rfl
  | true => exact absurd (mem_of_hasPre h c hc) hs

theorem drop_len_append (p r : GoStr) : (p ++ r).drop p.length = r := by
  induction p with
  | nil => rfl
  | cons c t ih => simp [ih]

theorem take_len_append (p r : GoStr) : (p ++ r).take p.length = p := by
  induction p with
  | nil => rfl
  | cons c t ih => simp [ih]

theorem trimPre_append (p r : GoStr) : trimPre (p ++ r) p = r := by
  simp [trimPre, hasPre_append_self, drop_len_append]

theorem trimPre_no {s p : GoStr} (h : hasPre s p = false) : trimPre s p = s := by
  simp [trimPre, h]

theorem strIndex_singleton_none {s : GoStr} {c : Char} (h : c ∉ s) :
    strIndex s [c] = none := by
  induction s with
  | nil => rfl
  | cons y ys ih =>
    have hcy : (c == y) = false := by
      simp only [beq_eq_false_iff_ne, ne_eq]
      exact fun e => h (e ▸ List.mem_cons_self y ys)
    have hys : c ∉ ys := fun hm => h (List.mem_cons_of_mem y hm)
    simp [strIndex, hasPre, hcy, hasPre_nil, ih hys]

theorem strIndex_singleton_append {s₁ : GoStr} (c : Char) (s₂ : GoStr)
    (h : c ∉ s₁) : strIndex (s₁ ++ c :: s₂) [c] = some s₁.length := by
  induction s₁ with
  | nil => simp [strIndex, hasPre]
  | cons y ys ih =>
    have hcy : (c == y) = false := by
      simp only [beq_eq_false_iff_ne, ne_eq]
      exact fun e => h (e ▸ List.mem_cons_self y ys)
    have hys : c ∉ ys := fun hm => h (List.mem_cons_of_mem y hm)
    simp [strIndex, hasPre, hcy, hasPre_nil, ih hys]

theorem hasPre_of_hasPre_append {w p q : GoStr}
    (h : hasPre w (p ++ q) = true) : hasPre w p = true := by
  induction p generalizing w with
  | nil => exact hasPre_nil w
  | cons x xs ih =>
    cases w with
    | nil => simp [hasPre] at h
    | cons y ys =>
      simp only [List.cons_append, hasPre, Bool.and_eq_true] at h ⊢
      exact ⟨h.1, ih h.2⟩

theorem strIndex_cons_eq_none {c : Char} {t sub : GoStr} :
    strIndex (c :: t) sub = none ↔
      hasPre (c :: t) sub = false ∧ strIndex t sub = none := by
  simp only [strIndex]
  split
  next hcond => simp [hcond]
  next hcond =>
    simp only [Bool.not_eq_true] at hcond
    simp [hcond, Option.map_eq_none']

theorem strIndex_append_sub_none {s p q : GoStr} (h : strIndex s p = none) :
    strIndex s (p ++ q) = none := by
  induction s with
  | nil =>
    cases p with
    | nil => simp [strIndex, hasPre_nil] at h
    | cons x xs => cases q <;> rfl
  | cons c t ih =>
    obtain ⟨h1, h2⟩ := strIndex_cons_eq_none.mp h
    refine strIndex_cons_eq_none.mpr ⟨?_, ih h2⟩
    cases hq : hasPre (c :: t) (p ++ q) with
    | false => rfl
    | true =>
      have hp := hasPre_of_hasPre_append hq
      rw [h1] at hp
      exact hp.symm

theorem containsSub_of_append {s₁ s₂ sub : GoStr} (h : hasPre s₂ sub = true) :
    containsSub (s₁ ++ s₂) sub = true := by
  induction s₁ with
  | nil =>
    cases s₂ with
    | nil => simp [containsSub, strIndex, h]
    | cons c t => simp [containsSub, strIndex, h]
  | cons c t ih =>
    simp only [List.cons_append, containsSub, strIndex]
    split
    · rfl
    · simpa [containsSub] using ih

theorem strIndex_isSome_of_dotS3Dot {s : GoStr}
    (h : containsSub s dotS3Dot = true) : strIndex s dotS3 ≠ none := by
  intro hn
  have hext : strIndex s (dotS3 ++ ['.']) = none := strIndex_append_sub_none hn
  rw [show dotS3 ++ ['.'] = dotS3Dot from rfl] at hext
  simp [containsSub, hext] at h

theorem hasPre_dotS3_cons_append (c : Char) (t v : GoStr)
    (hv : v.head? = some '.') :
    hasPre ((c :: t) ++ v) dotS3 = hasPre (c :: t) dotS3 := by
  obtain ⟨v', rfl⟩ : ∃ v', v = '.' :: v' := by
    cases v with
    | nil => simp at hv
    | cons a as =>
      simp only [List.head?_cons, Option.some.injEq] at hv
      exact ⟨as, by rw [hv]⟩
  match t with
  | [] => rfl
  | [d] => rfl
  | d :: e :: t' => simp [hasPre, dotS3, hasPre_nil]

theorem strIndex_dotS3_append {b v : GoStr} (hv : v.head? = some '.')
    (hpre : hasPre v dotS3 = true) (hb : strIndex b dotS3 = none) :
    strIndex (b ++ v) dotS3 = some b.length := by
  induction b with
  | nil =>
    cases v with
    | nil => simp at hv
    | cons a as => simp [strIndex, hpre]
  | cons c t ih =>
    obtain ⟨h1, h2⟩ := strIndex_cons_eq_none.mp hb
    have hfalse : hasPre ((c :: t) ++ v) dotS3 = false := by
      rw [hasPre_dotS3_cons_append c t v hv]; exact h1
    rw [List.cons_append] at hfalse
    simp [strIndex, hfalse, ih h2]

/-! ### Characterization of the validation routine -/

theorem isLowerAlnum_iff (c : Char) :
    isLowerAlnum c = true ↔ ('a' ≤ c ∧ c ≤ 'z') ∨ ('0' ≤ c ∧ c ≤ '9') := by
  simp [isLowerAlnum, Bool.or_eq_true, Bool.and_eq_true, decide_eq_true_eq]

theorem isAllowedChar_iff (c : Char) :
    isAllowedChar c = true ↔
      ('a' ≤ c ∧ c ≤ 'z') ∨ ('0' ≤ c ∧ c ≤ '9') ∨ c = '.' ∨ c = '-' := by
  simp [isAllowedChar, isLowerAlnum, Bool.or_eq_true, Bool.and_eq_true,
    decide_eq_true_eq, beq_iff_eq, or_assoc]

theorem isAllowedChar_ne {c : Char} (h : isAllowedChar c = true) :
    c ≠ ':' ∧ c ≠ '/' ∧ c ≠ '?' := by
  refine ⟨fun e => ?_, fun e => ?_, fun e => ?_⟩ <;>
    (subst e; exact absurd h (by decide))

theorem scanChars_eq (l : GoStr) : ∀ p : Bool,
    scanChars l p =
      if l.all isAllowedChar && noAdjFrom p l then some (l.count '.')
      else none := by
  induction l with
  | nil => intro p; simp [scanChars, noAdjFrom]
  | cons c t ih =>
    intro p
    by_cases hc : isAllowedChar c = true
    · by_cases hdot : c = '.'
      · subst hdot
        cases p with
        | true =>
          have h1 : scanChars ('.' :: t) true = none := by simp [scanChars, hc]
          have h2 : noAdjFrom true ('.' :: t) = false := by simp [noAdjFrom]
          rw [h1, h2]
          simp
        | false =>
          have h1 : scanChars ('.' :: t) false =
              (scanChars t true).map (fun k => k + 1) := by
            simp [scanChars, hc]
          have h2 : noAdjFrom false ('.' :: t) = noAdjFrom true t := by
            simp [noAdjFrom]
          rw [h1, ih true]
          by_cases hcond : (t.all isAllowedChar && noAdjFrom true t) = true
          · simp [hcond, hc, h2, List.count_cons]
          · simp only [Bool.not_eq_true] at hcond
            simp [hcond, hc, h2]
      · have hne : (c == '.') = false := by simp [hdot]
        have h1 : scanChars (c :: t) p = scanChars t false := by
          simp [scanChars, hc, hne]
        have h2 : noAdjFrom p (c :: t) = noAdjFrom false t := by
          simp [noAdjFrom, hne]
        rw [h1, ih false]
        by_cases hcond : (t.all isAllowedChar && noAdjFrom false t) = true
        · simp [hcond, hc, h2, List.count_cons, hne]
        · simp only [Bool.not_eq_true] at hcond
          simp [hcond, hc, h2]
    · have h0 : isAllowedChar c = false := by simpa using hc
      have h1 : scanChars (c :: t) p = none := by simp [scanChars, h0]
      rw [h1]
      simp [h0]

theorem singleton_pre_iff (a : Char) (l : GoStr) :
    [a] <+: l ↔ l.head? = some a := by
  cases l with
  | nil => simp
  | cons b t => simp [List.cons_prefix_cons, eq_comm]

theorem noAdjFrom_false_iff (l : GoStr) : ∀ p : Bool,
    noAdjFrom p l = false ↔
      (p = true ∧ l.head? = some '.') ∨ ['.', '.'] <:+: l := by
  induction l with
  | nil => intro p; simp [noAdjFrom]
  | cons c t ih =>
    intro p
    rw [show noAdjFrom p (c :: t) =
      (!(p && c == '.') && noAdjFrom (c == '.') t) from rfl]
    rw [List.infix_cons_iff, List.cons_prefix_cons, singleton_pre_iff]
    by_cases hdot : c = '.'
    · subst hdot
      cases p with
      | true => simp
      | false => simp [ih true]
    · have hne : (c == '.') = false := by simp [hdot]
      have hne2 : ('.' = c) = False := by
        simp [eq_comm]
        exact hdot
      simp [hne, ih false, hne2, hdot]

theorem noAdj_true_iff (l : GoStr) :
    noAdjFrom false l = true ↔ ¬ (['.', '.'] <:+: l) := by
  have h := noAdjFrom_false_iff l false
  simp only [Bool.false_eq_true, false_and, false_or] at h
  constructor
  · intro ht hinf
    rw [h.mpr hinf] at ht
    exact absurd ht (by decide)
  · intro hni
    cases hb : noAdjFrom false l with
    | true => rfl
    | false => exact absurd (h.mp hb) hni

theorem splitOnDot_ne_nil (s : GoStr) : splitOnDot s ≠ [] := by
  cases s with
  | nil => simp [splitOnDot]
  | cons c t =>
    simp only [splitOnDot]
    split
    · simp
    · split <;> simp

theorem joinDots_cons (p : GoStr) (ps : List GoStr) (h : ps ≠ []) :
    joinDots (p :: ps) = p ++ '.' :: joinDots ps := by
  cases ps with
  | nil => exact absurd rfl h
  | cons q qs => rfl

theorem joinDots_splitOnDot (s : GoStr) : joinDots (splitOnDot s) = s := by
  induction s with
  | nil => rfl
  | cons c t ih =>
    by_cases hc : c = '.'
    · subst hc
      have h1 : splitOnDot ('.' :: t) = [] :: splitOnDot t := by
        simp [splitOnDot]
      rw [h1, joinDots_cons [] _ (splitOnDot_ne_nil t), List.nil_append, ih]
    · have hne : (c == '.') = false := by simp [hc]
      rcases hsp : splitOnDot t with - | ⟨h0, r⟩
      · exact absurd hsp (splitOnDot_ne_nil t)
      · have h1 : splitOnDot (c :: t) = (c :: h0) :: r := by
          simp [splitOnDot, hne, hsp]
        rw [h1]
        cases r with
        | nil =>
          rw [hsp] at ih
          rw [show joinDots [h0] = h0 from rfl] at ih
          rw [show joinDots [c :: h0] = c :: h0 from rfl, ih]
        | cons r0 rs =>
          rw [hsp] at ih
          rw [joinDots_cons _ _ (by simp)] at ih
          rw [joinDots_cons _ _ (by simp), List.cons_append, ih]

theorem splitOnDot_no_dot {a : GoStr} (h : '.' ∉ a) : splitOnDot a = [a] := by
  induction a with
  | nil => rfl
  | cons c t ih =>
    have hc : (c == '.') = false := by
      simp only [beq_eq_false_iff_ne, ne_eq]
      exact fun e => h (by rw [e]; exact List.mem_cons_self '.' t)
    have ht : '.' ∉ t := fun hm => h (List.mem_cons_of_mem _ hm)
    simp [splitOnDot, hc, ih ht]

theorem splitOnDot_append {a : GoStr} (h : '.' ∉ a) (r : GoStr) :
    splitOnDot (a ++ '.' :: r) = a :: splitOnDot r := by
  induction a with
  | nil => simp [splitOnDot]
  | cons c t ih =>
    have hc : (c == '.') = false := by
      simp only [beq_eq_false_iff_ne, ne_eq]
      exact fun e => h (by rw [e]; exact List.mem_cons_self '.' t)
    have ht : '.' ∉ t := fun hm => h (List.mem_cons_of_mem _ hm)
    simp [splitOnDot, hc, ih ht]

theorem splitOnDot_length (s : GoStr) :
    (splitOnDot s).length = s.count '.' + 1 := by
  induction s with
  | nil => rfl
  | cons c t ih =>
    by_cases hc : c = '.'
    · subst hc
      simp [splitOnDot, List.count_cons, ih]
    · have hne : (c == '.') = false := by simp [hc]
      rcases hsp : splitOnDot t with - | ⟨h0, r⟩
      · exact absurd hsp (splitOnDot_ne_nil t)
      · have h1 : splitOnDot (c :: t) = (c :: h0) :: r := by
          simp [splitOnDot, hne, hsp]
        rw [hsp] at ih
        have hcount : (c :: t).count '.' = t.count '.' :=
          List.count_cons_of_ne (fun e => hc e.symm) t
        rw [h1, List.length_cons, hcount]
        simpa using ih

theorem length_eq_four {α : Type} {l : List α} (h : l.length = 4) :
    ∃ a b c d, l = [a, b, c, d] := by
  cases l with
  | nil => simp at h
  | cons a l1 =>
    cases l1 with
    | nil => simp at h
    | cons b l2 =>
      cases l2 with
      | nil => simp at h
      | cons c l3 =>
        cases l3 with
        | nil => simp at h
        | cons d l4 =>
          cases l4 with
          | nil => exact ⟨a, b, c, d, rfl⟩
          | cons e l5 => simp at h

theorem isDigitChar_iff (c : Char) :
    isDigitChar c = true ↔ '0' ≤ c ∧ c ≤ '9' := by
  simp [isDigitChar, Bool.and_eq_true, decide_eq_true_eq]

theorem isIPLike_iff_specDottedQuad (name : GoStr) :
    isIPLike name = true ↔ specDottedQuad name := by
  constructor
  · intro h
    simp only [isIPLike, Bool.and_eq_true, beq_iff_eq, List.all_eq_true] at h
    obtain ⟨hlen, hall⟩ := h
    obtain ⟨a, b, c, d, habcd⟩ := length_eq_four hlen
    have hmem : ∀ p ∈ splitOnDot name, p.isEmpty = false ∧
        (∀ x ∈ p, isDigitChar x = true) := by
      intro p hp
      have := hall p hp
      simp only [Bool.and_eq_true, Bool.not_eq_true', List.all_eq_true] at this
      exact this
    rw [habcd] at hmem
    have ha := hmem a (by simp)
    have hb := hmem b (by simp)
    have hc := hmem c (by simp)
    have hd := hmem d (by simp)
    have hname := joinDots_splitOnDot name
    rw [habcd] at hname
    rw [show joinDots [a, b, c, d] =
      a ++ '.' :: (b ++ '.' :: (c ++ '.' :: d)) from rfl] at hname
    refine ⟨a, b, c, d, ?_, ?_, ?_, ?_, ?_, hname.symm⟩
    · exact fun e => by rw [e] at ha; exact absurd ha.1 (by decide)
    · exact fun e => by rw [e] at hb; exact absurd hb.1 (by decide)
    · exact fun e => by rw [e] at hc; exact absurd hc.1 (by decide)
    · exact fun e => by rw [e] at hd; exact absurd hd.1 (by decide)
    · intro x hx
      rcases List.mem_append.mp hx with hx1 | hx2
      · rcases List.mem_append.mp hx1 with hx3 | hx4
        · rcases List.mem_append.mp hx3 with hx5 | hx6
          · exact (isDigitChar_iff x).mp (ha.2 x hx5)
          · exact (isDigitChar_iff x).mp (hb.2 x hx6)
        · exact (isDigitChar_iff x).mp (hc.2 x hx4)
      · exact (isDigitChar_iff x).mp (hd.2 x hx2)
  · rintro ⟨a, b, c, d, ha, hb, hc, hd, hdig, rfl⟩
    have hndig : ∀ p : GoStr, (∀ x ∈ p, x ∈ a ++ b ++ c ++ d) → '.' ∉ p := by
      intro p hsub hm
      exact absurd (hdig '.' (hsub '.' hm)) (by decide)
    have hda : '.' ∉ a :=
      hndig a (fun x hx => by simp [hx])
    have hdb : '.' ∉ b :=
      hndig b (fun x hx => by simp [hx])
    have hdc : '.' ∉ c :=
      hndig c (fun x hx => by simp [hx])
    have hdd : '.' ∉ d :=
      hndig d (fun x hx => by simp [hx])
    have hsp : splitOnDot (a ++ '.' :: (b ++ '.' :: (c ++ '.' :: d))) =
        [a, b, c, d] := by
      rw [splitOnDot_append hda, splitOnDot_append hdb, splitOnDot_append hdc,
        splitOnDot_no_dot hdd]
    simp only [isIPLike, hsp, List.all_eq_true, Bool.and_eq_true, beq_iff_eq]
    refine ⟨rfl, ?_⟩
    intro p hp
    have hpd : ∀ x ∈ p, isDigitChar x = true := by
      intro x hx
      refine (isDigitChar_iff x).mpr (hdig x ?_)
      rcases List.mem_cons.mp hp with rfl | hp1
      · simp [hx]
      rcases List.mem_cons.mp hp1 with rfl | hp2
      · simp [hx]
      rcases List.mem_cons.mp hp2 with rfl | hp3
      · simp [hx]
      rcases List.mem_cons.mp hp3 with rfl | hp4
      · simp [hx]
      · simp at hp4
    have hpe : p.isEmpty = false := by
      rcases List.mem_cons.mp hp with rfl | hp1
      · simpa using ha
      rcases List.mem_cons.mp hp1 with rfl | hp2
      · simpa using hb
      rcases List.mem_cons.mp hp2 with rfl | hp3
      · simpa using hc
      rcases List.mem_cons.mp hp3 with rfl | hp4
      · simpa using hd
      · simp at hp4
    simp only [Bool.and_eq_true, Bool.not_eq_true', List.all_eq_true]
    exact ⟨hpe, hpd⟩

theorem count_eq_three_of_IPLike {name : GoStr} (h : isIPLike name = true) :
    name.count '.' = 3 := by
  simp only [isIPLike, Bool.and_eq_true, beq_iff_eq] at h
  have hlen := splitOnDot_length name
  rw [h.1] at hlen
  omega

theorem isValidBucketName_eq (name : GoStr) :
    isValidBucketName name =
      (decide (3 ≤ name.length) && decide (name.length ≤ 63) &&
       isLowerAlnum (name.headD ' ') && isLowerAlnum (name.getLastD ' ') &&
       name.all isAllowedChar && noAdjFrom false name &&
       !(name.count '.' == 3 && isIPLike name)) := by
  unfold isValidBucketName
  rw [scanChars_eq name false]
  by_cases hA1 : name.length < 3
  · have h' : ¬ (3 ≤ name.length) := by omega
    simp [hA1, h']
  by_cases hA2 : 63 < name.length
  · have h' : ¬ (name.length ≤ 63) := by omega
    simp [hA2, h']
  have h3 : 3 ≤ name.length := by omega
  have h63 : name.length ≤ 63 := by omega
  by_cases hB : isLowerAlnum (name.headD ' ') = true
  case neg =>
    have h' : isLowerAlnum ((name.head?).getD ' ') = false := by
      rw [← List.headD_eq_head?]
      simpa using hB
    simp [hA1, hA2, h3, h63, h', Bool.and_assoc]
  by_cases hC : isLowerAlnum (name.getLastD ' ') = true
  case neg =>
    have h' : isLowerAlnum ((name.getLast?).getD ' ') = false := by
      rw [← List.getLastD_eq_getLast?]
      simpa using hC
    simp [hA1, hA2, h3, h63, hB, h', Bool.and_assoc]
  by_cases hAll : name.all isAllowedChar = true
  case neg =>
    have h' : name.all isAllowedChar = false := by simpa using hAll
    simp [hA1, hA2, h3, h63, hB, hC, h']
  by_cases hAdj : noAdjFrom false name = true
  case neg =>
    have h' : noAdjFrom false name = false := by simpa using hAdj
    simp [hA1, hA2, h3, h63, hB, hC, hAll, h']
  cases hE : name.count '.' == 3 with
  | true => simp [hA1, hA2, h3, h63, hB, hC, hAll, hAdj, hE, Bool.and_assoc]
  | false => simp [hA1, hA2, h3, h63, hB, hC, hAll, hAdj, hE, Bool.and_assoc]

theorem valid_length {b : GoStr} (h : isValidBucketName b = true) :
    3 ≤ b.length := by
  rw [isValidBucketName_eq] at h
  simp only [Bool.and_eq_true, decide_eq_true_eq] at h
  exact h.1.1.1.1.1.1

theorem valid_allowed {b : GoStr} (h : isValidBucketName b = true) :
    ∀ c ∈ b, isAllowedChar c = true := by
  rw [isValidBucketName_eq] at h
  simp only [Bool.and_eq_true, List.all_eq_true] at h
  exact h.1.1.2

theorem isValidBucketName_iff (name : GoStr) :
    isValidBucketName name = true ↔ specValidBucketName name := by
  rw [isValidBucketName_eq]
  unfold specValidBucketName
  simp only [Bool.and_eq_true, decide_eq_true_eq, Bool.not_eq_true',
    Bool.and_eq_false_iff, beq_eq_false_iff_ne, List.all_eq_true, ne_eq,
    beq_iff_eq]
  constructor
  · rintro ⟨⟨⟨⟨⟨⟨hl3, hl63⟩, hB⟩, hC⟩, hAll⟩, hAdj⟩, hIP⟩
    obtain ⟨c0, rest, rfl⟩ : ∃ c0 rest, name = c0 :: rest := by
      cases name with
      | nil => simp at hl3
      | cons a r => exact ⟨a, r, rfl⟩
    refine ⟨hl3, hl63, ?_, ?_, ?_, ?_, ?_⟩
    · intro c hc
      simp only [List.head?_cons, Option.some.injEq] at hc
      subst hc
      exact (isLowerAlnum_iff c0).mp hB
    · intro c hc
      rw [List.getLastD_eq_getLast?, hc] at hC
      exact (isLowerAlnum_iff c).mp hC
    · intro c hc
      exact (isAllowedChar_iff c).mp (hAll c hc)
    · exact (noAdj_true_iff _).mp hAdj
    · intro hq
      have hip := (isIPLike_iff_specDottedQuad _).mpr hq
      have hc3 := count_eq_three_of_IPLike hip
      rcases hIP with h | h
      · exact h hc3
      · rw [hip] at h
        exact absurd h (by decide)
  · rintro ⟨hl3, hl63, hHead, hLast, hChars, hAdjP, hQuad⟩
    obtain ⟨c0, rest, rfl⟩ : ∃ c0 rest, name = c0 :: rest := by
      cases name with
      | nil => simp at hl3
      | cons a r => exact ⟨a, r, rfl⟩
    refine ⟨⟨⟨⟨⟨⟨hl3, hl63⟩, ?_⟩, ?_⟩, ?_⟩, ?_⟩, ?_⟩
    · exact (isLowerAlnum_iff c0).mpr (hHead c0 rfl)
    · rcases hgl : (c0 :: rest).getLast? with - | x
      · rw [List.getLast?_eq_none_iff] at hgl
        simp at hgl
      · rw [List.getLastD_eq_getLast?, hgl]
        exact (isLowerAlnum_iff x).mpr (hLast x hgl)
    · exact fun c hc => (isAllowedChar_iff c).mpr (hChars c hc)
    · exact (noAdj_true_iff _).mpr hAdjP
    · cases hip : isIPLike (c0 :: rest) with
      | false => exact Or.inr rfl
      | true => exact absurd ((isIPLike_iff_specDottedQuad _).mp hip) hQuad

/-! ### Normalizer lemmas -/

theorem colon_mem_arnPre : ':' ∈ arnPre := by decide

theorem colon_mem_s3Pre : ':' ∈ s3Pre := by decide

theorem colon_mem_httpPre : ':' ∈ httpPre := by decide

theorem colon_mem_httpsPre : ':' ∈ httpsPre := by decide

theorem no_colon_of_allowed {s : GoStr}
    (h : ∀ c ∈ s, isAllowedChar c = true) : ':' ∉ s :=
  fun hm => (isAllowedChar_ne (h ':' hm)).1 rfl

theorem no_slash_of_allowed {s : GoStr}
    (h : ∀ c ∈ s, isAllowedChar c = true) : '/' ∉ s :=
  fun hm => (isAllowedChar_ne (h '/' hm)).2.1 rfl

theorem no_qmark_of_allowed {s : GoStr}
    (h : ∀ c ∈ s, isAllowedChar c = true) : '?' ∉ s :=
  fun hm => (isAllowedChar_ne (h '?' hm)).2.2 rfl

theorem upToSlash_no_slash {s : GoStr} (h : '/' ∉ s) : upToSlash s = s := by
  simp [upToSlash, strIndex_singleton_none h]

theorem upToSlash_append {s₁ : GoStr} (h : '/' ∉ s₁) (s₂ : GoStr) :
    upToSlash (s₁ ++ '/' :: s₂) = s₁ := by
  simp [upToSlash, strIndex_singleton_append '/' s₂ h, take_len_append]

theorem derive_of_no_colon {s : GoStr} (h : ':' ∉ s) :
    deriveBucketName s = upToSlash s := by
  unfold deriveBucketName
  rw [hasPre_eq_false_of_mem colon_mem_arnPre h,
      hasPre_eq_false_of_mem colon_mem_s3Pre h,
      hasPre_eq_false_of_mem colon_mem_httpPre h,
      hasPre_eq_false_of_mem colon_mem_httpsPre h]
  simp

theorem derive_s3U (r : GoStr) : deriveBucketName (s3Pre ++ r) = upToSlash r := by
  unfold deriveBucketName
  rw [show hasPre (s3Pre ++ r) arnPre = false from rfl,
      show hasPre (s3Pre ++ r) s3Pre = true from hasPre_append_self s3Pre r]
  simp [bucketFromS3URI, trimPre_append]

theorem derive_arnF (r : GoStr) :
    deriveBucketName (arnPre ++ r) = upToSlash r := by
  unfold deriveBucketName
  rw [show hasPre (arnPre ++ r) arnPre = true from hasPre_append_self arnPre r]
  simp [bucketFromARN, trimPre_append]

theorem derive_httpsF (r : GoStr) :
    deriveBucketName (httpsPre ++ r) = bucketFromHTTPURL (httpsPre ++ r) := by
  unfold deriveBucketName
  rw [show hasPre (httpsPre ++ r) arnPre = false from rfl,
      show hasPre (httpsPre ++ r) s3Pre = false from rfl,
      show hasPre (httpsPre ++ r) httpsPre = true from hasPre_append_self _ _]
  simp

theorem derive_httpF (r : GoStr) :
    deriveBucketName (httpPre ++ r) = bucketFromHTTPURL (httpPre ++ r) := by
  unfold deriveBucketName
  rw [show hasPre (httpPre ++ r) arnPre = false from rfl,
      show hasPre (httpPre ++ r) s3Pre = false from rfl,
      show hasPre (httpPre ++ r) httpPre = true from hasPre_append_self _ _]
  simp

theorem stripHttps {r : GoStr} (h : ':' ∉ r) :
    trimPre (trimPre (httpsPre ++ r) httpsPre) httpPre = r := by
  rw [trimPre_append, trimPre_no (hasPre_eq_false_of_mem colon_mem_httpPre h)]

theorem stripHttp (r : GoStr) :
    trimPre (trimPre (httpPre ++ r) httpsPre) httpPre = r := by
  rw [trimPre_no (show hasPre (httpPre ++ r) httpsPre = false from rfl),
    trimPre_append]

theorem bucketFromHTTPURL_vh_nopath (b : GoStr)
    (hcol : ':' ∉ b) (hsl : '/' ∉ b) (hs3 : strIndex b dotS3 = none) :
    bucketFromHTTPURL (httpsPre ++ (b ++ s3HostSuffix)) = b := by
  have hcol2 : ':' ∉ b ++ s3HostSuffix := by
    intro hm
    rcases List.mem_append.mp hm with h1 | h2
    · exact hcol h1
    · exact absurd h2 (by decide)
  have hsl2 : '/' ∉ b ++ s3HostSuffix := by
    intro hm
    rcases List.mem_append.mp hm with h1 | h2
    · exact hsl h1
    · exact absurd h2 (by decide)
  have hnoslash : strIndex (b ++ s3HostSuffix) ['/'] = none :=
    strIndex_singleton_none hsl2
  have hcont : containsSub (b ++ s3HostSuffix) dotS3Dot = true :=
    containsSub_of_append (by decide)
  have hidx : strIndex (b ++ s3HostSuffix) dotS3 = some b.length :=
    strIndex_dotS3_append (by decide) (by decide) hs3
  simp only [bucketFromHTTPURL, stripHttps hcol2, hnoslash, hcont, hidx,
    Bool.true_or, if_true, take_len_append]

theorem bucketFromHTTPURL_vh_path (b xs : GoStr)
    (hcol : ':' ∉ b) (hsl : '/' ∉ b) (hxscol : ':' ∉ xs) :
    bucketFromHTTPURL (httpsPre ++ ((b ++ s3HostSuffix) ++ '/' :: xs)) =
      bucketFromHTTPURL (httpsPre ++ (b ++ s3HostSuffix)) := by
  have hcol2 : ':' ∉ b ++ s3HostSuffix := by
    intro hm
    rcases List.mem_append.mp hm with h1 | h2
    · exact hcol h1
    · exact absurd h2 (by decide)
  have hcol3 : ':' ∉ (b ++ s3HostSuffix) ++ '/' :: xs := by
    intro hm
    rcases List.mem_append.mp hm with h1 | h2
    · exact hcol2 h1
    · rcases List.mem_cons.mp h2 with h3 | h4
      · exact absurd h3 (by decide)
      · exact hxscol h4
  have hsl2 : '/' ∉ b ++ s3HostSuffix := by
    intro hm
    rcases List.mem_append.mp hm with h1 | h2
    · exact hsl h1
    · exact absurd h2 (by decide)
  have hnoslash : strIndex (b ++ s3HostSuffix) ['/'] = none :=
    strIndex_singleton_none hsl2
  have hslidx : strIndex ((b ++ s3HostSuffix) ++ '/' :: xs) ['/'] =
      some (b ++ s3HostSuffix).length :=
    strIndex_singleton_append '/' xs hsl2
  have hcont : containsSub (b ++ s3HostSuffix) dotS3Dot = true :=
    containsSub_of_append (by decide)
  rcases hidx : strIndex (b ++ s3HostSuffix) dotS3 with - | i
  · exact absurd hidx (strIndex_isSome_of_dotS3Dot hcont)
  · simp only [bucketFromHTTPURL, stripHttps hcol3, stripHttps hcol2,
      hnoslash, hslidx, take_len_append, hcont, Bool.true_or, if_true, hidx]

theorem bucketFromHTTPURL_host_only {host : GoStr}
    (h1 : strIndex host ['/'] = none)
    (h2 : containsSub host dotS3Dot = false)
    (h3 : containsSub host dotS3Dash = false)
    (h4 : ':' ∉ host) :
    bucketFromHTTPURL (httpsPre ++ host) = host ∧
    bucketFromHTTPURL (httpPre ++ host) = host := by
  constructor
  · simp only [bucketFromHTTPURL, stripHttps h4, h1, h2, h3, Bool.or_self,
      Bool.false_eq_true, if_false, httpFallback, List.isEmpty_nil,
      Bool.not_true]
  · simp only [bucketFromHTTPURL, stripHttp, h1, h2, h3, Bool.or_self,
      Bool.false_eq_true, if_false, httpFallback, List.isEmpty_nil,
      Bool.not_true]

/-! ### Resolver lemmas -/

theorem byNameSt_invalid {σ : Type} (t : TransportSt σ) (st : σ) {name : GoStr}
    (h : isValidBucketName name = false) :
    GetBucketRegionByNameSt t st name =
      (([], some (.wrapped [] (gs ": " ++ name) errInvalidBucketName)), st) := by
  simp [GetBucketRegionByNameSt, h]

theorem byNameSt_cases {σ : Type} (t : TransportSt σ) (st : σ) (name : GoStr) :
    (isValidBucketName name = false ∧
      GetBucketRegionByNameSt t st name =
        (([], some (.wrapped [] (gs ": " ++ name) errInvalidBucketName)), st)) ∨
    (isValidBucketName name = true ∧ ∃ res st',
      t st (headReq name) = (res, st') ∧
      ((∃ cause, res = .error cause ∧
         GetBucketRegionByNameSt t st name =
           (([], some (.wrapped (gs "failed to perform HEAD request: ") []
               (.sentinel cause))), st')) ∨
       (∃ resp, res = .ok resp ∧
         (((resp.statusCode == 404) = true ∧
            GetBucketRegionByNameSt t st name =
              (([], some errBucketNotFound), st')) ∨
          ((resp.statusCode == 404) = false ∧ (headerGet resp).isEmpty = true ∧
            GetBucketRegionByNameSt t st name =
              (([], some errRegionHeaderNotFound), st')) ∨
          ((resp.statusCode == 404) = false ∧ (headerGet resp).isEmpty = false ∧
            GetBucketRegionByNameSt t st name =
              ((trimSpace (headerGet resp), none), st')))))) := by
  by_cases hv : isValidBucketName name = true
  · right
    refine ⟨hv, ?_⟩
    rcases ht : t st (headReq name) with ⟨res, st'⟩
    refine ⟨res, st', rfl, ?_⟩
    rcases res with cause | resp
    · exact Or.inl ⟨cause, rfl, by simp [GetBucketRegionByNameSt, hv, ht]⟩
    · refine Or.inr ⟨resp, rfl, ?_⟩
      by_cases h404 : (resp.statusCode == 404) = true
      · exact Or.inl ⟨h404, by simp [GetBucketRegionByNameSt, hv, ht, h404]⟩
      · have h404f : (resp.statusCode == 404) = false := by simpa using h404
        by_cases hemp : (headerGet resp).isEmpty = true
        · exact Or.inr (Or.inl ⟨h404f, hemp,
            by simp [GetBucketRegionByNameSt, hv, ht, h404f, hemp]⟩)
        · have hempf : (headerGet resp).isEmpty = false := by simpa using hemp
          exact Or.inr (Or.inr ⟨h404f, hempf,
            by simp [GetBucketRegionByNameSt, hv, ht, h404f, hempf]⟩)
  · have hvf : isValidBucketName name = false := by simpa using hv
    exact Or.inl ⟨hvf, byNameSt_invalid t st hvf⟩

theorem byName_ok_resp (resp : Response) {name : GoStr}
    (h : isValidBucketName name = true) :
    GetBucketRegionByName (fun _ => .ok resp) name =
      if resp.statusCode == 404 then ([], some errBucketNotFound)
      else if (headerGet resp).isEmpty then ([], some errRegionHeaderNotFound)
      else (trimSpace (headerGet resp), none) := by
  unfold GetBucketRegionByName GetBucketRegionByNameSt liftT
  rw [h]
  by_cases h404 : (resp.statusCode == 404) = true
  · simp [h404]
  · have h404f : (resp.statusCode == 404) = false := by simpa using h404
    by_cases hemp : (headerGet resp).isEmpty = true
    · simp [h404f, hemp]
    · have hempf : (headerGet resp).isEmpty = false := by simpa using hemp
      simp [h404f, hempf]

theorem byNameSt_fst {σ : Type} (t : TransportSt σ) (f : Transport)
    (hf : ∀ s r, (t s r).1 = f r) (st : σ) (name : GoStr) :
    (GetBucketRegionByNameSt t st name).1 = GetBucketRegionByName f name := by
  unfold GetBucketRegionByName GetBucketRegionByNameSt liftT
  by_cases hv : isValidBucketName name = true
  · rw [hv]
    rcases ht : t st (headReq name) with ⟨res, st'⟩
    have hres : res = f (headReq name) := by
      rw [← hf st (headReq name), ht]
    rw [← hres]
    rcases res with cause | resp
    · simp
    · by_cases h404 : resp.statusCode = 404
      · simp [h404]
      · by_cases hemp : headerGet resp = []
        · simp [h404, hemp]
        · simp [h404, hemp]
  · have hvf : isValidBucketName name = false := by simpa using hv
    simp [hvf]

theorem byNameSt_requests (f : Transport) (st₀ : List Request) {name : GoStr}
    (hv : isValidBucketName name = true) :
    (GetBucketRegionByNameSt (fun st r => (f r, st ++ [r])) st₀ name).2 =
      st₀ ++ [headReq name] := by
  unfold GetBucketRegionByNameSt
  rw [hv]
  rcases hr : f (headReq name) with cause | resp
  · simp [hr]
  · by_cases h404 : (resp.statusCode == 404) = true
    · simp [hr, h404]
    · have h404f : (resp.statusCode == 404) = false := by simpa using h404
      by_cases hemp : (headerGet resp).isEmpty = true
      · simp [hr, h404f, hemp]
      · have hempf : (headerGet resp).isEmpty = false := by simpa using hemp
        simp [hr, h404f, hempf]

/-! ### Claim theorems -/

/-- C1 (counterexample): the claim as stated is false. The bucket name
`"a.s3.b"` passes bucket-name validation, yet the virtual-hosted form
`"https://" ++ "a.s3.b" ++ ".s3.amazonaws.com"` normalizes to bucket name
`"a"`, not `"a.s3.b"`, because `GetBucketRegionFromHTTPURL` cuts the host at
the FIRST occurrence of `".s3"`. -/
theorem c1_counterexample :
    isValidBucketName (gs "a.s3.b") = true ∧
    deriveBucketName (gs "https://" ++ gs "a.s3.b" ++ gs ".s3.amazonaws.com") =
      gs "a" ∧
    gs "a" ≠ gs "a.s3.b" :=
  ⟨by decide, by decide, by decide⟩

/-- C1 (amended): for every bucket name `b` that passes validation AND does
not contain the substring `".s3"`, the four identifier forms `b`,
`"s3://" ++ b`, `"arn:aws:s3:::" ++ b` and
`"https://" ++ b ++ ".s3.amazonaws.com"` (the named constants are exactly
these literals) all derive the identical normalized bucket name `b` before
the network call. -/
theorem c1_theorem (b : GoStr) (hv : isValidBucketName b = true)
    (hs3 : strIndex b dotS3 = none) :
    deriveBucketName b = b ∧
    deriveBucketName (s3Pre ++ b) = b ∧
    deriveBucketName (arnPre ++ b) = b ∧
    deriveBucketName (httpsPre ++ (b ++ s3HostSuffix)) = b := by
  have hall := valid_allowed hv
  have hcol := no_colon_of_allowed hall
  have hsl := no_slash_of_allowed hall
  refine ⟨?_, ?_, ?_, ?_⟩
  · rw [derive_of_no_colon hcol, upToSlash_no_slash hsl]
  · rw [derive_s3U, upToSlash_no_slash hsl]
  · rw [derive_arnF, upToSlash_no_slash hsl]
  · rw [derive_httpsF, bucketFromHTTPURL_vh_nopath b hcol hsl hs3]

/-- C1 (witness): the amended claim at the concrete bucket name
`"my-bucket"`. -/
theorem c1_witness :
    isValidBucketName (gs "my-bucket") = true ∧
    strIndex (gs "my-bucket") dotS3 = none ∧
    deriveBucketName (gs "my-bucket") = gs "my-bucket" ∧
    deriveBucketName (s3Pre ++ gs "my-bucket") = gs "my-bucket" ∧
    deriveBucketName (arnPre ++ gs "my-bucket") = gs "my-bucket" ∧
    deriveBucketName (httpsPre ++ (gs "my-bucket" ++ s3HostSuffix)) =
      gs "my-bucket" :=
  ⟨by decide, by decide,
   (c1_theorem (gs "my-bucket") (by decide) (by decide)).1,
   (c1_theorem (gs "my-bucket") (by decide) (by decide)).2.1,
   (c1_theorem (gs "my-bucket") (by decide) (by decide)).2.2.1,
   (c1_theorem (gs "my-bucket") (by decide) (by decide)).2.2.2⟩

/-- C2 (counterexample): the claim as stated is false. With a stub transport
returning status 200 and header value `" "` (whitespace only — empty after
trimming), `GetBucketRegionByName` does NOT fail with the
RegionHeaderMissing error: it succeeds and returns the empty string as the
region (the emptiness check is on the raw header value, before trimming). -/
theorem c2_counterexample :
    GetBucketRegionByName (fun _ => .ok ⟨200, some [' ']⟩) (gs "my-bucket") =
      ([], none) ∧
    trimSpace [' '] = [] ∧
    GetBucketRegionByName (fun _ => .ok ⟨200, some [' ']⟩) (gs "my-bucket") ≠
      ([], some errRegionHeaderNotFound) :=
  ⟨by decide, by decide, by decide⟩

/-- C2 (amended): after a non-404 response the emptiness check is on the raw
header value as returned by `Header.Get`: if the header is absent or its raw
value is the empty string, the call fails with the RegionHeaderMissing error;
otherwise it returns the trimmed header value — which may itself be empty
when the header is whitespace-only. -/
theorem c2_theorem (resp : Response) (name : GoStr)
    (hv : isValidBucketName name = true) (h404 : resp.statusCode ≠ 404) :
    (headerGet resp = [] →
      GetBucketRegionByName (fun _ => .ok resp) name =
        ([], some errRegionHeaderNotFound)) ∧
    (headerGet resp ≠ [] →
      GetBucketRegionByName (fun _ => .ok resp) name =
        (trimSpace (headerGet resp), none)) := by
  have h404f : (resp.statusCode == 404) = false := by simpa using h404
  constructor
  · intro he
    rw [byName_ok_resp resp hv]
    simp [h404f, he]
  · intro hne
    have hef : (headerGet resp).isEmpty = false := by
      simpa [List.isEmpty_iff] using hne
    rw [byName_ok_resp resp hv]
    simp [h404f, hef]

/-- C2 (witness): the amended claim at concrete responses — status 200 with
header `"us-east-1"` succeeds with that region; status 200 with the header
absent fails with the RegionHeaderMissing error. -/
theorem c2_witness :
    GetBucketRegionByName (fun _ => .ok ⟨200, some (gs "us-east-1")⟩)
        (gs "my-bucket") = (gs "us-east-1", none) ∧
    GetBucketRegionByName (fun _ => .ok ⟨200, none⟩) (gs "my-bucket") =
      ([], some errRegionHeaderNotFound) := by
  constructor
  · have h := (c2_theorem ⟨200, some (gs "us-east-1")⟩ (gs "my-bucket")
      (by decide) (by decide)).2 (by decide)
    rw [h]
    decide
  · exact (c2_theorem ⟨200, none⟩ (gs "my-bucket") (by decide) (by decide)).1
      (by decide)

/-- C3: a 404 response always yields the BucketNotFound error, even when the
region header is present; for every other status code the call succeeds
exactly when the region header is present (observed, as the code does,
through `Header.Get` returning a non-empty raw value) — header presence is
the sole success criterion beyond the 404 short-circuit. -/
theorem c3_theorem (resp : Response) (name : GoStr)
    (hv : isValidBucketName name = true) :
    (resp.statusCode = 404 →
      GetBucketRegionByName (fun _ => .ok resp) name =
        ([], some errBucketNotFound)) ∧
    (resp.statusCode ≠ 404 →
      ((GetBucketRegionByName (fun _ => .ok resp) name).2 = none ↔
        headerGet resp ≠ [])) := by
  constructor
  · intro h404
    rw [byName_ok_resp resp hv]
    simp [h404]
  · intro h404
    have h404f : (resp.statusCode == 404) = false := by simpa using h404
    rw [byName_ok_resp resp hv]
    by_cases hemp : headerGet resp = []
    · simp [h404f, hemp]
    · have hef : (headerGet resp).isEmpty = false := by
        simpa [List.isEmpty_iff] using hemp
      simp [h404f, hef, hemp]

/-- C3 (witness): a 404 response with the header present still yields
BucketNotFound; a 403 response with the header present succeeds. -/
theorem c3_witness :
    GetBucketRegionByName (fun _ => .ok ⟨404, some (gs "us-east-1")⟩)
        (gs "my-bucket") = ([], some errBucketNotFound) ∧
    (GetBucketRegionByName (fun _ => .ok ⟨403, some (gs "eu-west-1")⟩)
        (gs "my-bucket")).2 = none :=
  ⟨(c3_theorem ⟨404, some (gs "us-east-1")⟩ (gs "my-bucket") (by decide)).1
     rfl,
   ((c3_theorem ⟨403, some (gs "eu-west-1")⟩ (gs "my-bucket") (by decide)).2
     (by decide)).mpr (by decide)⟩

/-- C4: every entry point funnels through `GetBucketRegionByNameSt` on the
derived bucket name; a name is accepted iff it satisfies the spec's rules
(length 3–63, lowercase-alphanumeric first/last character, only lowercase
letters, digits, `.`, `-`, no two adjacent periods, not a dotted-quad IPv4
address); on validation failure the call returns the InvalidIdentifier error
with the transport state unchanged — i.e. without invoking the transport;
and the four spec examples behave as stated. -/
theorem c4_theorem :
    (∀ name : GoStr, isValidBucketName name = true ↔
      specValidBucketName name) ∧
    (∀ (σ : Type) (t : TransportSt σ) (st : σ) (input : GoStr),
      GetBucketRegionSt t st input =
        GetBucketRegionByNameSt t st (deriveBucketName input)) ∧
    (∀ (σ : Type) (t : TransportSt σ) (st : σ) (name : GoStr),
      isValidBucketName name = false →
      GetBucketRegionByNameSt t st name =
        (([], some (.wrapped [] (gs ": " ++ name) errInvalidBucketName)), st)) ∧
    isValidBucketName (gs "ab") = false ∧
    isValidBucketName (gs "a..b") = false ∧
    isValidBucketName (gs "192.168.1.1") = false ∧
    isValidBucketName (gs "my-bucket") = true := by
  refine ⟨isValidBucketName_iff, ?_, ?_, by decide, by decide, by decide,
    by decide⟩
  · exact fun σ t st input => getBucketRegionSt_factor t st input
  · exact fun σ t st name h => byNameSt_invalid t st h

/-- C4 (witness): the invalid name `"ab"` makes the call fail with the
InvalidIdentifier error and leaves a request-recording transport's state
empty (no request issued); `"my-bucket"` satisfies the spec predicate. -/
theorem c4_witness :
    isValidBucketName (gs "ab") = false ∧
    GetBucketRegionByNameSt
        (fun (st : List Request) r =>
          (Except.ok ⟨200, some (gs "us-east-1")⟩, st ++ [r])) [] (gs "ab") =
      (([], some (.wrapped [] (gs ": " ++ gs "ab") errInvalidBucketName)),
        []) ∧
    specValidBucketName (gs "my-bucket") :=
  ⟨by decide,
   c4_theorem.2.2.1 (List Request) _ [] (gs "ab") (by decide),
   (c4_theorem.1 (gs "my-bucket")).mp (by decide)⟩

/-- C5: for every validated bucket name the resolver issues exactly one
request — a HEAD to exactly `https://<name>.s3.amazonaws.com` — with no `/`
after the scheme (no trailing path) and no `?` anywhere (no query string);
and the path-style URL `https://s3.us-west-2.amazonaws.com/my-bucket/path`
normalizes to `my-bucket` and is queried at the global endpoint, the
`us-west-2` hint being discarded. -/
theorem c5_theorem (f : Transport) (name : GoStr)
    (hv : isValidBucketName name = true) :
    (GetBucketRegionByNameSt (fun (st : List Request) r => (f r, st ++ [r]))
        [] name).2 = [headReq name] ∧
    (headReq name).method = gs "HEAD" ∧
    (headReq name).url = httpsPre ++ name ++ s3HostSuffix ∧
    strIndex (name ++ s3HostSuffix) ['/'] = none ∧
    '?' ∉ (headReq name).url ∧
    deriveBucketName (gs "https://s3.us-west-2.amazonaws.com/my-bucket/path") =
      gs "my-bucket" ∧
    (GetBucketRegionSt (fun (st : List Request) r => (f r, st ++ [r])) []
        (gs "https://s3.us-west-2.amazonaws.com/my-bucket/path")).2 =
      [headReq (gs "my-bucket")] := by
  have hall := valid_allowed hv
  refine ⟨?_, rfl, rfl, ?_, ?_, by decide, ?_⟩
  · simpa using byNameSt_requests f [] hv
  · refine strIndex_singleton_none (fun hm => ?_)
    rcases List.mem_append.mp hm with h | h
    · exact no_slash_of_allowed hall h
    · exact absurd h (by decide)
  · intro hm
    rcases List.mem_append.mp hm with h | h
    · rcases List.mem_append.mp h with h1 | h2
      · exact absurd h1 (by decide)
      · exact no_qmark_of_allowed hall h2
    · exact absurd h (by decide)
  · rw [getBucketRegionSt_factor,
      show deriveBucketName
        (gs "https://s3.us-west-2.amazonaws.com/my-bucket/path") =
        gs "my-bucket" from by decide]
    simpa using byNameSt_requests f [] (by decide)

/-- C5 (witness): the claim at the concrete name `"my-bucket"`, with the
request URL evaluated to the literal
`https://my-bucket.s3.amazonaws.com`. -/
theorem c5_witness :
    (GetBucketRegionByNameSt (fun (st : List Request) r =>
        (Except.ok ⟨200, some (gs "us-east-1")⟩, st ++ [r])) []
        (gs "my-bucket")).2 = [headReq (gs "my-bucket")] ∧
    (headReq (gs "my-bucket")).url = gs "https://my-bucket.s3.amazonaws.com" :=
  ⟨(c5_theorem (fun _ => Except.ok ⟨200, some (gs "us-east-1")⟩)
      (gs "my-bucket") (by decide)).1,
   by decide⟩

/-- C6: appending `"/any/path"` to each of the four identifier forms (plain
bucket name, `s3://` URI, ARN, virtual-hosted URL) does not change the
bucket name that `GetBucketRegion` derives. -/
theorem c6_theorem (b : GoStr) (hv : isValidBucketName b = true) :
    deriveBucketName (b ++ anyPath) = deriveBucketName b ∧
    deriveBucketName ((s3Pre ++ b) ++ anyPath) =
      deriveBucketName (s3Pre ++ b) ∧
    deriveBucketName ((arnPre ++ b) ++ anyPath) =
      deriveBucketName (arnPre ++ b) ∧
    deriveBucketName ((httpsPre ++ (b ++ s3HostSuffix)) ++ anyPath) =
      deriveBucketName (httpsPre ++ (b ++ s3HostSuffix)) := by
  have hall := valid_allowed hv
  have hcol := no_colon_of_allowed hall
  have hsl := no_slash_of_allowed hall
  have hcolp : ':' ∉ b ++ anyPath := by
    intro hm
    rcases List.mem_append.mp hm with h | h
    · exact hcol h
    · exact absurd h (by decide)
  refine ⟨?_, ?_, ?_, ?_⟩
  · rw [derive_of_no_colon hcolp, derive_of_no_colon hcol,
        upToSlash_no_slash hsl,
        show b ++ anyPath = b ++ '/' :: ['a','n','y','/','p','a','t','h']
          from rfl,
        upToSlash_append hsl]
  · rw [show (s3Pre ++ b) ++ anyPath = s3Pre ++ (b ++ anyPath) from
        List.append_assoc s3Pre b anyPath,
        derive_s3U, derive_s3U, upToSlash_no_slash hsl,
        show b ++ anyPath = b ++ '/' :: ['a','n','y','/','p','a','t','h']
          from rfl,
        upToSlash_append hsl]
  · rw [show (arnPre ++ b) ++ anyPath = arnPre ++ (b ++ anyPath) from
        List.append_assoc arnPre b anyPath,
        derive_arnF, derive_arnF, upToSlash_no_slash hsl,
        show b ++ anyPath = b ++ '/' :: ['a','n','y','/','p','a','t','h']
          from rfl,
        upToSlash_append hsl]
  · rw [show (httpsPre ++ (b ++ s3HostSuffix)) ++ anyPath =
        httpsPre ++ ((b ++ s3HostSuffix) ++
          '/' :: ['a','n','y','/','p','a','t','h']) from
        List.append_assoc httpsPre (b ++ s3HostSuffix) anyPath,
        derive_httpsF, derive_httpsF,
        bucketFromHTTPURL_vh_path b _ hcol hsl (by decide)]

/-- C6 (witness): the claim at the concrete bucket name `"my-bucket"`. -/
theorem c6_witness :
    deriveBucketName (gs "my-bucket" ++ anyPath) =
      deriveBucketName (gs "my-bucket") ∧
    deriveBucketName ((s3Pre ++ gs "my-bucket") ++ anyPath) =
      deriveBucketName (s3Pre ++ gs "my-bucket") ∧
    deriveBucketName ((arnPre ++ gs "my-bucket") ++ anyPath) =
      deriveBucketName (arnPre ++ gs "my-bucket") ∧
    deriveBucketName ((httpsPre ++ (gs "my-bucket" ++ s3HostSuffix)) ++
        anyPath) =
      deriveBucketName (httpsPre ++ (gs "my-bucket" ++ s3HostSuffix)) :=
  ⟨(c6_theorem (gs "my-bucket") (by decide)).1,
   (c6_theorem (gs "my-bucket") (by decide)).2.1,
   (c6_theorem (gs "my-bucket") (by decide)).2.2.1,
   (c6_theorem (gs "my-bucket") (by decide)).2.2.2⟩

/-- C7: an `http://` or `https://` input whose host contains neither `".s3."`
nor `".s3-"` and whose path is empty falls back to treating the entire host
as the bucket name, and the call proceeds to the (validating) resolver rather
than being rejected as a format error at the normalization stage; in
particular `https://s3.amazonaws.com` yields the "bucket name"
`s3.amazonaws.com`, which even passes validation and reaches the
transport. -/
theorem c7_theorem {σ : Type} (t : TransportSt σ) (st : σ) (host : GoStr)
    (h1 : strIndex host ['/'] = none)
    (h2 : containsSub host dotS3Dot = false)
    (h3 : containsSub host dotS3Dash = false)
    (h4 : ':' ∉ host) :
    deriveBucketName (httpsPre ++ host) = host ∧
    deriveBucketName (httpPre ++ host) = host ∧
    GetBucketRegionSt t st (httpsPre ++ host) =
      GetBucketRegionByNameSt t st host ∧
    deriveBucketName (gs "https://s3.amazonaws.com") =
      gs "s3.amazonaws.com" ∧
    isValidBucketName (gs "s3.amazonaws.com") = true := by
  have hh := bucketFromHTTPURL_host_only h1 h2 h3 h4
  refine ⟨?_, ?_, ?_, by decide, by decide⟩
  · rw [derive_httpsF]
    exact hh.1
  · rw [derive_httpF]
    exact hh.2
  · rw [getBucketRegionSt_factor, derive_httpsF, hh.1]

/-- C7 (witness): the claim at the concrete input
`https://s3.amazonaws.com`, with a request-recording transport showing that
the resolver is reached and issues the (degenerate) HEAD request. -/
theorem c7_witness :
    deriveBucketName (httpsPre ++ gs "s3.amazonaws.com") =
      gs "s3.amazonaws.com" ∧
    GetBucketRegionSt
        (fun (st : List Request) r =>
          (Except.ok ⟨200, some (gs "us-east-1")⟩, st ++ [r])) []
        (httpsPre ++ gs "s3.amazonaws.com") =
      GetBucketRegionByNameSt
        (fun (st : List Request) r =>
          (Except.ok ⟨200, some (gs "us-east-1")⟩, st ++ [r])) []
        (gs "s3.amazonaws.com") ∧
    (GetBucketRegionSt
        (fun (st : List Request) r =>
          (Except.ok ⟨200, some (gs "us-east-1")⟩, st ++ [r])) []
        (httpsPre ++ gs "s3.amazonaws.com")).2 =
      [headReq (gs "s3.amazonaws.com")] :=
  ⟨(c7_theorem (fun (st : List Request) r =>
      (Except.ok ⟨200, some (gs "us-east-1")⟩, st ++ [r])) []
      (gs "s3.amazonaws.com") (by decide) (by decide) (by decide)
      (by decide)).1,
   (c7_theorem (fun (st : List Request) r =>
      (Except.ok ⟨200, some (gs "us-east-1")⟩, st ++ [r])) []
      (gs "s3.amazonaws.com") (by decide) (by decide) (by decide)
      (by decide)).2.2.1,
   by decide⟩

/-- C8 (counterexample): the claim as stated is false. With a stub transport
returning 404, the error returned by `GetBucketRegionByName` is the bare
sentinel `ErrBucketNotFound`: its message contains neither the operation
name (`GetBucketRegionByName`) nor the input (`my-bucket`), and it wraps no
lower-level cause (`Unwrap` is nil). -/
theorem c8_counterexample :
    (GetBucketRegionByName (fun _ => .ok ⟨404, some (gs "us-east-1")⟩)
        (gs "my-bucket")).2 = some errBucketNotFound ∧
    containsSub (GoErr.message errBucketNotFound)
      (gs "GetBucketRegionByName") = false ∧
    containsSub (GoErr.message errBucketNotFound) (gs "my-bucket") = false ∧
    GoErr.unwrap errBucketNotFound = none :=
  ⟨by decide, by decide, by decide, rfl⟩

/-- C8 (amended): every error returned by `GetBucketRegionByName` is one of
exactly four shapes: the invalid-name error, which wraps the
`ErrInvalidBucketName` sentinel and is annotated with the (derived) bucket
name but not with the operation name; the transport error, which wraps the
underlying cause (inspectable by unwrapping); and the bare 404 and
missing-header sentinels, which carry neither operation name nor input. -/
theorem c8_theorem (t : Transport) (name r : GoStr) (e : GoErr)
    (h : GetBucketRegionByName t name = (r, some e)) :
    (e = .wrapped [] (gs ": " ++ name) errInvalidBucketName ∧
      e.message = gs "invalid S3 bucket name: " ++ name ∧
      e.isErr errInvalidBucketName = true) ∨
    (∃ cause, e = .wrapped (gs "failed to perform HEAD request: ") []
        (.sentinel cause) ∧
      e.unwrap = some (.sentinel cause) ∧
      e.message = gs "failed to perform HEAD request: " ++ cause) ∨
    (e = errBucketNotFound ∧
      e.message = gs "aws s3 bucket not found") ∨
    (e = errRegionHeaderNotFound ∧
      e.message = gs "x-amz-bucket-region header not found in response") := by
  have hfun : GetBucketRegionByName t name =
      (GetBucketRegionByNameSt (liftT t) () name).1 := rfl
  rcases byNameSt_cases (liftT t) () name with ⟨hval, heq⟩ |
    ⟨hval, res, st', ht, hsh⟩
  · left
    rw [hfun, heq] at h
    have he : e = .wrapped [] (gs ": " ++ name) errInvalidBucketName := by
      have h2 := (Prod.mk.injEq _ _ _ _).mp h
      exact (Option.some.injEq _ _).mp h2.2.symm
    subst he
    refine ⟨rfl, ?_, rfl⟩
    show gs "invalid S3 bucket name" ++ (gs ": " ++ name) =
      gs "invalid S3 bucket name: " ++ name
    rw [← List.append_assoc]
    rfl
  · rcases hsh with ⟨cause, hres, heq⟩ | ⟨resp, hres, hcases⟩
    · right; left
      rw [hfun, heq] at h
      have he : e = .wrapped (gs "failed to perform HEAD request: ") []
          (.sentinel cause) := by
        have h2 := (Prod.mk.injEq _ _ _ _).mp h
        exact (Option.some.injEq _ _).mp h2.2.symm
      subst he
      refine ⟨cause, rfl, rfl, ?_⟩
      show gs "failed to perform HEAD request: " ++ cause ++ [] =
        gs "failed to perform HEAD request: " ++ cause
      rw [List.append_nil]
    · rcases hcases with ⟨h404, heq⟩ | ⟨h404, hemp, heq⟩ | ⟨h404, hemp, heq⟩
      · right; right; left
        rw [hfun, heq] at h
        have he : e = errBucketNotFound := by
          have h2 := (Prod.mk.injEq _ _ _ _).mp h
          exact (Option.some.injEq _ _).mp h2.2.symm
        subst he
        exact ⟨rfl, rfl⟩
      · right; right; right
        rw [hfun, heq] at h
        have he : e = errRegionHeaderNotFound := by
          have h2 := (Prod.mk.injEq _ _ _ _).mp h
          exact (Option.some.injEq _ _).mp h2.2.symm
        subst he
        exact ⟨rfl, rfl⟩
      · rw [hfun, heq] at h
        have h2 := (Prod.mk.injEq _ _ _ _).mp h
        exact absurd h2.2 (by simp)

/-- C8 (witness): the amended claim at the 404 stub, the concrete input
`"my-bucket"` and the error `ErrBucketNotFound`. -/
theorem c8_witness :
    (errBucketNotFound = .wrapped [] (gs ": " ++ gs "my-bucket")
        errInvalidBucketName ∧
      GoErr.message errBucketNotFound =
        gs "invalid S3 bucket name: " ++ gs "my-bucket" ∧
      GoErr.isErr errBucketNotFound errInvalidBucketName = true) ∨
    (∃ cause, errBucketNotFound =
        .wrapped (gs "failed to perform HEAD request: ") []
          (.sentinel cause) ∧
      GoErr.unwrap errBucketNotFound = some (.sentinel cause) ∧
      GoErr.message errBucketNotFound =
        gs "failed to perform HEAD request: " ++ cause) ∨
    (errBucketNotFound = errBucketNotFound ∧
      GoErr.message errBucketNotFound = gs "aws s3 bucket not found") ∨
    (errBucketNotFound = errRegionHeaderNotFound ∧
      GoErr.message errBucketNotFound =
        gs "x-amz-bucket-region header not found in response") :=
  c8_theorem (fun _ => .ok ⟨404, some (gs "us-east-1")⟩) (gs "my-bucket") []
    errBucketNotFound (by decide)

/-- C9: `GetBucketRegion` is deterministic and stateless across calls:
whenever the transport's responses are determined by the request alone
(a stub), a second resolution of the same identifier — run from the
transport state the first call left behind — yields exactly the same result
(same region string, or an error of the same kind); no hidden state
accumulates in the resolver. -/
theorem c9_theorem {σ : Type} (t : TransportSt σ) (f : Transport)
    (hf : ∀ s r, (t s r).1 = f r) (st : σ) (input : GoStr) :
    (GetBucketRegionSt t st input).1 =
      (GetBucketRegionSt t (GetBucketRegionSt t st input).2 input).1 := by
  rw [getBucketRegionSt_factor t st input]
  rw [getBucketRegionSt_factor t _ input]
  rw [byNameSt_fst t f hf, byNameSt_fst t f hf]

/-- C9 (witness): the claim at a concrete state-changing (call-counting)
stub transport and the identifier `"my-bucket"`. -/
theorem c9_witness :
    (GetBucketRegionSt
        (fun (n : Nat) _ => (Except.ok ⟨200, some (gs "us-east-1")⟩, n + 1))
        0 (gs "my-bucket")).1 =
      (GetBucketRegionSt
          (fun (n : Nat) _ =>
            (Except.ok ⟨200, some (gs "us-east-1")⟩, n + 1))
          ((GetBucketRegionSt
              (fun (n : Nat) _ =>
                (Except.ok ⟨200, some (gs "us-east-1")⟩, n + 1))
              0 (gs "my-bucket")).2)
          (gs "my-bucket")).1 :=
  c9_theorem
    (fun (n : Nat) _ => (Except.ok ⟨200, some (gs "us-east-1")⟩, n + 1))
    (fun _ => Except.ok ⟨200, some (gs "us-east-1")⟩)
    (fun _ _ => rfl) 0 (gs "my-bucket")

/-- C10: whenever any entry point (`GetBucketRegionByName`,
`GetBucketRegionFromARN`, `GetBucketRegionFromS3URI`,
`GetBucketRegionFromHTTPURL`, `GetBucketRegion`) returns a non-nil error,
the accompanying region string is exactly the empty string. -/
theorem c10_theorem {σ : Type} (t : TransportSt σ) (st : σ) (s : GoStr) :
    (((GetBucketRegionByNameSt t st s).1.2).isSome →
      (GetBucketRegionByNameSt t st s).1.1 = []) ∧
    (((GetBucketRegionFromARNSt t st s).1.2).isSome →
      (GetBucketRegionFromARNSt t st s).1.1 = []) ∧
    (((GetBucketRegionFromS3URISt t st s).1.2).isSome →
      (GetBucketRegionFromS3URISt t st s).1.1 = []) ∧
    (((GetBucketRegionFromHTTPURLSt t st s).1.2).isSome →
      (GetBucketRegionFromHTTPURLSt t st s).1.1 = []) ∧
    (((GetBucketRegionSt t st s).1.2).isSome →
      (GetBucketRegionSt t st s).1.1 = []) := by
  have key : ∀ name : GoStr,
      ((GetBucketRegionByNameSt t st name).1.2).isSome →
      (GetBucketRegionByNameSt t st name).1.1 = [] := by
    intro name hs
    rcases byNameSt_cases t st name with ⟨hval, heq⟩ |
      ⟨hval, res, st', ht, hsh⟩
    · rw [heq]
    · rcases hsh with ⟨cause, hres, heq⟩ | ⟨resp, hres, hcases⟩
      · rw [heq]
      · rcases hcases with ⟨h404, heq⟩ | ⟨h404, hemp, heq⟩ |
          ⟨h404, hemp, heq⟩
        · rw [heq]
        · rw [heq]
        · rw [heq] at hs
          simp at hs
  refine ⟨key s, key _, key _, key _, ?_⟩
  rw [getBucketRegionSt_factor]
  exact key _

/-- C10 (witness): the claim at a 404 stub — the error is present and the
region string is empty. -/
theorem c10_witness :
    ((GetBucketRegionByNameSt
        (fun (u : Unit) _ => (Except.ok ⟨404, some (gs "us-east-1")⟩, u)) ()
        (gs "my-bucket")).1.2).isSome = true ∧
    (GetBucketRegionByNameSt
        (fun (u : Unit) _ => (Except.ok ⟨404, some (gs "us-east-1")⟩, u)) ()
        (gs "my-bucket")).1.1 = [] :=
  ⟨by decide,
   (c10_theorem
     (fun (u : Unit) _ => (Except.ok ⟨404, some (gs "us-east-1")⟩, u)) ()
     (gs "my-bucket")).1 (by decide)⟩

end S3Region
